import Mathlib

/-
Verification of the firestore-metrics response-normalization library.

The repository contains three variants of the normalizer:
 * `src/index.ts`, class `FirestoreMetrics`: structural dedup via a
   `JSON.stringify`-substring test (`containsObject`), placeholder-label
   stripping (`cleanObject`), counts parsed with `parseInt`.
 * `unnamed/part_002`, class `FirestoreMonitoring`: dedup by
   `interval.startTime`, counts kept as the raw decimal string.
 * `unnamed/part_003`, class `FirestoreMetrics` (operation-label variant):
   no dedup, an `operation` field taken from `labels.type || labels.op`.

All definitions below are shallow embeddings of the TypeScript source;
stateful code (token caching) is modelled by explicit state passing and
the HTTP layer by a response value handed in by the environment.
-/

namespace FirestoreMetrics

/-- A JavaScript value that can sit in a metric label slot of a parsed
response: a string, JSON `null`, or `undefined` (a key explicitly set to
`undefined`; `JSON.parse` itself never produces this, but `cleanObject`
handles it and the claims mention it). -/
inductive LabelVal where
  | str : String → LabelVal
  | null : LabelVal
  | undefined : LabelVal
deriving DecidableEq

/-- `Interval` from `src/index.ts`: start/end timestamp strings. -/
structure Interval where
  startTime : String
  endTime : String
deriving DecidableEq

/-- The `value` field of a point: `{ int64Value: string }`. -/
structure PointValue where
  int64Value : String
deriving DecidableEq

/-- `Point` from `src/index.ts`: one interval and one count value,
transmitted as a decimal string. -/
structure Point where
  interval : Interval
  value : PointValue
deriving DecidableEq

/-- `Metric` from `src/index.ts`: the label map of a series.  A parsed JS
object is an ordered association list with pairwise-distinct keys; the
order is the JSON source order (the object spread and `JSON.stringify`
both follow it). -/
structure Metric where
  labels : List (String × LabelVal)
deriving DecidableEq

/-- `TimeSeries` from `src/index.ts`: a metric descriptor plus an ordered
sequence of points. -/
structure TimeSeries where
  metric : Metric
  points : List Point
deriving DecidableEq

/-- `TimeSeriesResponse`: the top-level parsed payload.  `none` models a
response body whose `timeSeries` field is absent (`undefined`). -/
structure TimeSeriesResponse where
  timeSeries : Option (List TimeSeries)
deriving DecidableEq

/-- Value of a digit string, most significant digit first. -/
def digitsToNat (ds : List Char) : Nat :=
  ds.foldl (fun a c => a * 10 + (c.toNat - Char.toNat (Char.ofNat 48))) 0

/-- JavaScript `parseInt(s)` restricted to base-10 inputs (the
`int64Value` wire format is a decimal string): skip leading whitespace,
read an optional sign, then the longest leading run of decimal digits,
ignoring any trailing garbage; `none` models the `NaN` result when no
digit is found. -/
def jsParseInt (s : String) : Option Int :=
  let cs := s.data.dropWhile (fun c => c == ' ' || c == '\t' || c == '\n' || c == '\r')
  let signed : Int × List Char :=
    match cs with
    | '-' :: t => (-1, t)
    | '+' :: t => (1, t)
    | _ => (1, cs)
  let ds := signed.2.takeWhile Char.isDigit
  if ds.isEmpty then none else some (signed.1 * (digitsToNat ds : Int))

/-- The values `cleanObject(obj, "__unknown__", "")` removes: the members
of `invalidValues = [null, undefined, "__unknown__", ""]`. -/
def isInvalidLabelVal : LabelVal → Bool
  | .null => true
  | .undefined => true
  | .str s => s == "__unknown__" || s == ""

/-- `FirestoreMetrics.cleanObject(labels, "__unknown__", "")` from
`src/index.ts`: delete every key whose value is in `invalidValues`.  The
source mutates the label object in place; since the operation is
idempotent, repeated in-place cleaning of the same series object and this
pure per-point function produce the same records. -/
def cleanObject (labels : List (String × LabelVal)) : List (String × LabelVal) :=
  labels.filter (fun kv => !(isInvalidLabelVal kv.2))

/-- Output record of `FirestoreMetrics.cleanResponseTimeSeries` in
`src/index.ts`: `{ ...labels, interval, count }`.  The cleaned labels keep
their object order and precede the `interval` and `count` keys; `count`
is `parseInt(point.value.int64Value)`, with `none` for `NaN`.  (Metric
label names never collide with the reserved keys `interval`/`count`.) -/
structure TimeIntervalMetric where
  labels : List (String × LabelVal)
  interval : Interval
  count : Option Int
deriving DecidableEq

/-- One escaped character of a JSON string literal (quote and backslash
escaping; the inputs at issue contain no control characters). -/
def escChar (c : Char) : List Char :=
  if c == '"' then ['\\', '"']
  else if c == '\\' then ['\\', '\\']
  else [c]

/-- Body of a JSON string literal. -/
def escStr (s : String) : List Char :=
  s.data.flatMap escChar

/-- A quoted JSON string literal. -/
def qstr (s : String) : List Char :=
  '"' :: (escStr s ++ ['"'])

/-- `JSON.stringify` of a label value.  Cleaned records only ever hold
`.str` values (`cleanObject` removes `null`/`undefined`), so the catch-all
`null` rendering is never reached on records the program builds. -/
def jsonLabelVal : LabelVal → List Char
  | .str s => qstr s
  | _ => ['n', 'u', 'l', 'l']

/-- Decimal rendering of a parsed count; `none` (`NaN`) serializes to
`null` under `JSON.stringify`. -/
def jsonCount : Option Int → List Char
  | none => ['n', 'u', 'l', 'l']
  | some n => if n < 0 then '-' :: Nat.toDigits 10 n.natAbs else Nat.toDigits 10 n.natAbs

/-- One `"key":value` member of a serialized object. -/
def jsonMember (kv : String × LabelVal) : List Char :=
  qstr kv.1 ++ ':' :: jsonLabelVal kv.2

/-- The label members of a record, each followed by the separating comma
that precedes the `interval` key. -/
def jsonLabelMembers : List (String × LabelVal) → List Char
  | [] => []
  | kv :: rest => jsonMember kv ++ ',' :: jsonLabelMembers rest

/-- `JSON.stringify(interval)`. -/
def jsonInterval (i : Interval) : List Char :=
  '\x7b' :: (qstr "startTime" ++ ':' :: qstr i.startTime ++
    ',' :: qstr "endTime" ++ ':' :: qstr i.endTime) ++ ['\x7d']

/-- `JSON.stringify(pointMetric)` for a record
`{ ...labels, interval, count }`: the cleaned labels in object order,
then `interval`, then `count`. -/
def jsonRecord (r : TimeIntervalMetric) : List Char :=
  '\x7b' :: (jsonLabelMembers r.labels ++
    qstr "interval" ++ ':' :: jsonInterval r.interval ++
    ',' :: qstr "count" ++ ':' :: jsonCount r.count) ++ ['\x7d']

/-- The comma-preceded tail elements of a serialized array. -/
def jsonRecTail : List TimeIntervalMetric → List Char
  | [] => []
  | r :: rest => ',' :: (jsonRecord r ++ jsonRecTail rest)

/-- The elements of a serialized array, comma-separated. -/
def jsonRecElems : List TimeIntervalMetric → List Char
  | [] => []
  | r :: rest => jsonRecord r ++ jsonRecTail rest

/-- `JSON.stringify(cleanTimeSeries)` for the accumulated output array. -/
def jsonRecList (l : List TimeIntervalMetric) : List Char :=
  '[' :: (jsonRecElems l ++ [']'])

/-- `needle.isPrefixOf hay` spelled out on character lists. -/
def startsWithB : List Char → List Char → Bool
  | _, [] => true
  | [], _ :: _ => false
  | c :: t, d :: u => c == d && startsWithB t u

/-- `hay.includes(needle)` of JavaScript strings: does `needle` occur as a
contiguous substring of `hay`? -/
def strContains (hay needle : List Char) : Bool :=
  startsWithB hay needle ||
    match hay with
    | [] => false
    | _ :: t => strContains t needle

/-- `FirestoreMetrics.containsObject(obj, list)` from `src/index.ts`:
`JSON.stringify(list).includes(JSON.stringify(obj))`. -/
def containsObject (obj : TimeIntervalMetric) (list : List TimeIntervalMetric) : Bool :=
  strContains (jsonRecList list) (jsonRecord obj)

/-- The record `{ ...cleanObject(ts.metric.labels, "__unknown__", ""),
interval: p.interval, count: parseInt(p.value.int64Value) }` built for a
point of a series in `src/index.ts`. -/
def pointRecord (ts : TimeSeries) (p : Point) : TimeIntervalMetric :=
  ⟨cleanObject ts.metric.labels, p.interval, jsParseInt p.value.int64Value⟩

/-- Body of the inner point loop of
`FirestoreMetrics.cleanResponseTimeSeries` (`src/index.ts`, lines
211-228): skip the point if its value is the literal string `"0"`,
otherwise build the record and append it unless `containsObject` already
finds its serialization in the accumulated array. -/
def cleanStep (ts : TimeSeries) (acc : List TimeIntervalMetric) (p : Point) :
    List TimeIntervalMetric :=
  if p.value.int64Value ≠ "0" then
    if containsObject (pointRecord ts p) acc then acc else acc ++ [pointRecord ts p]
  else acc

/-- The series loop of `FirestoreMetrics.cleanResponseTimeSeries`. -/
def cleanSeries (acc : List TimeIntervalMetric) (ts : TimeSeries) :
    List TimeIntervalMetric :=
  ts.points.foldl (cleanStep ts) acc

/-- `FirestoreMetrics.cleanResponseTimeSeries` from `src/index.ts`
(operating on the already-parsed body): return `[]` when the `timeSeries`
field is absent, otherwise run the nested series/point loops. -/
def cleanResponseTimeSeries (resp : TimeSeriesResponse) : List TimeIntervalMetric :=
  match resp.timeSeries with
  | none => []
  | some series => series.foldl cleanSeries []

/-- Output record of `FirestoreMonitoring.cleanResponseTimeSeries`
(`unnamed/part_002`): `{ interval, count: point.value.int64Value }` — the
count is the raw decimal string, not a parsed integer. -/
structure MonRecord where
  interval : Interval
  count : String
deriving DecidableEq

/-- Body of the inner point loop of
`FirestoreMonitoring.cleanResponseTimeSeries` (`unnamed/part_002`, lines
148-160), acting on the pair of accumulators
`(cleanTimeSeries, startTimes)`: skip the point if its value is the
literal `"0"` or its `interval.startTime` is already in `startTimes`;
otherwise append the record and record its start time. -/
def monStep (st : List MonRecord × List String) (p : Point) :
    List MonRecord × List String :=
  if p.value.int64Value ≠ "0" then
    if st.2.contains p.interval.startTime then st
    else (st.1 ++ [⟨p.interval, p.value.int64Value⟩], st.2 ++ [p.interval.startTime])
  else st

/-- `FirestoreMonitoring.cleanResponseTimeSeries` from `unnamed/part_002`
(operating on the already-parsed body): `[]` when `timeSeries` is absent,
otherwise the nested series/point loops with the start-time dedup. -/
def cleanResponseTimeSeriesMon (resp : TimeSeriesResponse) : List MonRecord :=
  match resp.timeSeries with
  | none => []
  | some series => (series.foldl (fun st ts => ts.points.foldl monStep st) ([], [])).1

/-- The record a nonzero point yields in the monitoring variant. -/
def monRecordOfPoint (p : Point) : MonRecord :=
  ⟨p.interval, p.value.int64Value⟩

/-- All points of a response in traversal order (series in input order,
then points in input order); empty when `timeSeries` is absent. -/
def responsePoints (resp : TimeSeriesResponse) : List Point :=
  match resp.timeSeries with
  | none => []
  | some series => series.flatMap (fun ts => ts.points)

/-- Value of a label key on a parsed label object: the stored value, or
`undefined` when the key is absent (parsed JS objects have pairwise
distinct keys). -/
def jsLookup (labels : List (String × LabelVal)) (k : String) : LabelVal :=
  match labels.find? (fun kv => kv.1 == k) with
  | some kv => kv.2
  | none => .undefined

/-- JavaScript truthiness of a label value: every string except `""` is
truthy; `null` and `undefined` are falsy. -/
def jsTruthy : LabelVal → Bool
  | .str s => !(s == "")
  | _ => false

/-- `timeSeries.metric.labels.type || timeSeries.metric.labels.op` from
`unnamed/part_003`, line 224: the `type` label if truthy, otherwise the
`op` label verbatim (which may itself be `undefined`). -/
def opLabel (labels : List (String × LabelVal)) : LabelVal :=
  let t := jsLookup labels "type"
  if jsTruthy t then t else jsLookup labels "op"

/-- Output record of the operation-label variant (`unnamed/part_003`):
`{ operation, interval, count }`; `operation` is `.undefined` when both the
`type` and `op` labels are absent. -/
structure OpRecord where
  operation : LabelVal
  interval : Interval
  count : Option Int
deriving DecidableEq

/-- `FirestoreMetrics.cleanResponseTimeSeries` from `unnamed/part_003`
(lines 209-234, operating on the already-parsed body): zero-filtering and
record construction with an `operation` field, and no deduplication of
any kind. -/
def cleanResponseTimeSeriesOp (resp : TimeSeriesResponse) : List OpRecord :=
  match resp.timeSeries with
  | none => []
  | some series =>
    series.foldl (fun acc ts =>
      ts.points.foldl (fun acc p =>
        if p.value.int64Value ≠ "0" then
          acc ++ [⟨opLabel ts.metric.labels, p.interval, jsParseInt p.value.int64Value⟩]
        else acc) acc) []

/-- A completed HTTP exchange as seen by `makeRequest`: the `fetch`
result's status and status text, the response body text, and the value
`JSON.parse` yields on that text (the parse itself is not modelled; the
two body fields are related by it). -/
structure HttpResponse where
  status : Nat
  statusText : String
  text : String
  json : TimeSeriesResponse
deriving DecidableEq

/-- `FirestoreMetrics.makeRequest` (`src/index.ts`, lines 139-163) after
the `fetch` call: on a non-200 status it throws `Error(await
response.text())`, modelled as `Except.error` carrying the body text;
otherwise it returns the response. -/
def makeRequest (response : HttpResponse) : Except String HttpResponse :=
  if response.status ≠ 200 then .error response.text else .ok response

/-- `FirestoreMonitoring.makeRequest` (`unnamed/part_002`, lines 110-129)
after the `fetch` call: the response is returned unconditionally; no
status is ever inspected and nothing is thrown. -/
def makeRequestMon (response : HttpResponse) : Except String HttpResponse :=
  .ok response

/-- `FirestoreMonitoringResponse` from `unnamed/part_002`: the envelope
`{ status, statusText, data }` the monitoring variant returns. -/
structure FirestoreMonitoringResponse where
  status : Nat
  statusText : String
  data : List MonRecord
deriving DecidableEq

/-- `FirestoreMonitoring.getFirestoreReadCount` (`unnamed/part_002`,
lines 173-189) after the request: wrap the response status, status text
and the cleaned time series in the result envelope. -/
def getFirestoreReadCount (response : HttpResponse) : FirestoreMonitoringResponse :=
  ⟨response.status, response.statusText, cleanResponseTimeSeriesMon response.json⟩

/-- The mutable fields of a `FirestoreMetrics` instance that the token
path touches: `projectId`, `accessToken`, and whether `googleAuth` has
been instantiated. -/
structure ClientState where
  projectId : Option String
  accessToken : Option String
  googleAuthCreated : Bool
deriving DecidableEq

/-- The external identity provider: the values
`googleAuth.getAccessToken()` and `googleAuth.getProjectId()` would
return during the call. -/
structure AuthEnv where
  token : String
  project : String
deriving DecidableEq

/-- `FirestoreMetrics.createGoogleAuthInstance` (`src/index.ts`, lines
89-96): instantiate `googleAuth` if it is still null. -/
def createGoogleAuthInstance (s : ClientState) : ClientState :=
  { s with googleAuthCreated := true }

/-- `FirestoreMetrics.getProjectId` (`src/index.ts`, lines 101-105):
`this.projectId = this.projectId || await googleAuth.getProjectId()` —
note the JavaScript `||`, under which an empty-string project id is also
replaced. -/
def getProjectId (env : AuthEnv) (s : ClientState) : ClientState × String :=
  let s := createGoogleAuthInstance s
  let pid := match s.projectId with
    | some p => if p = "" then env.project else p
    | none => env.project
  ({ s with projectId := some pid }, pid)

/-- `FirestoreMetrics.generateToken(overwriteExisting)` (`src/index.ts`,
lines 112-121): fetch a fresh access token only when none is cached or an
overwrite is requested, then ensure the project id is loaded; returns the
(possibly unchanged) cached token. -/
def generateToken (env : AuthEnv) (overwriteExisting : Bool) (s : ClientState) :
    ClientState × Option String :=
  let s :=
    if s.accessToken = none ∨ overwriteExisting = true then
      { createGoogleAuthInstance s with accessToken := some env.token }
    else s
  let s := (getProjectId env s).1
  (s, s.accessToken)

/-- `FirestoreMetrics.setAccessToken` (`src/index.ts`, lines 127-130). -/
def setAccessToken (accessToken : String) (s : ClientState) : ClientState :=
  { s with accessToken := some accessToken }

/-- The state effect of the token paragraph of
`FirestoreMetrics.getReadCount` (`src/index.ts`, lines 246-248; all other
metric-query methods are identical): when the caller passes no token,
`generateToken(false)` runs; otherwise the state is untouched. -/
def getReadCountTokenEffect (env : AuthEnv) (accessToken : Option String)
    (s : ClientState) : ClientState :=
  match accessToken with
  | none => (generateToken env false s).1
  | some _ => s

/-- Spec-side: `needle` occurs as a contiguous substring of `hay`. -/
def OccursIn (needle hay : List Char) : Prop :=
  ∃ a b, hay = a ++ needle ++ b

/-- The zero filter of every variant as a Boolean predicate: the point's
value differs from the literal string `"0"`. -/
def nonzero (p : Point) : Bool :=
  p.value.int64Value != "0"

/-- All records the structural-equality variant would build, in traversal
order and before zero-filtering and deduplication. -/
def mainCandidates (resp : TimeSeriesResponse) : List TimeIntervalMetric :=
  match resp.timeSeries with
  | none => []
  | some series => series.flatMap (fun ts => ts.points.map (pointRecord ts))

/-- All records the monitoring variant would build, in traversal order
and before zero-filtering and deduplication. -/
def monCandidates (resp : TimeSeriesResponse) : List MonRecord :=
  (responsePoints resp).map monRecordOfPoint

/-- Recursive rendering of the monitoring point loop over an explicit
flattened point list and `startTimes` accumulator; related to the source
loop by `foldl_monStep`. -/
def monAux : List Point → List String → List MonRecord
  | [], _ => []
  | p :: rest, seen =>
    if p.value.int64Value ≠ "0" then
      if seen.contains p.interval.startTime then monAux rest seen
      else monRecordOfPoint p :: monAux rest (seen ++ [p.interval.startTime])
    else monAux rest seen

/-- The final `startTimes` accumulator of the monitoring point loop. -/
def monSeen : List Point → List String → List String
  | [], seen => seen
  | p :: rest, seen =>
    if p.value.int64Value ≠ "0" then
      if seen.contains p.interval.startTime then monSeen rest seen
      else monSeen rest (seen ++ [p.interval.startTime])
    else monSeen rest seen

/-- Modelled from the spec: «given two points sharing the same
`interval.startTime`, only the first is retained» — keep each point and
drop every later point with the same start time. -/
def retainFirstByStart : List Point → List Point
  | [] => []
  | p :: rest =>
    p :: retainFirstByStart
      (rest.filter fun q => q.interval.startTime != p.interval.startTime)
termination_by l => l.length
decreasing_by
  simp only [List.length_cons]
  exact Nat.lt_succ_of_le (List.length_filter_le _ _)

/-- A response with a single point whose value `"00"` denotes zero but is
not the literal `"0"`. -/
def exZeroPad : TimeSeriesResponse :=
  ⟨some [⟨⟨[("type", .str "QUERY")]⟩, [⟨⟨"s", "e"⟩, ⟨"00"⟩⟩]⟩]⟩

/-- A response whose single series carries the same nonzero point twice. -/
def exDupPts : TimeSeriesResponse :=
  ⟨some [⟨⟨[("type", .str "QUERY")]⟩, [⟨⟨"s", "e"⟩, ⟨"5"⟩⟩, ⟨⟨"s", "e"⟩, ⟨"5"⟩⟩]⟩]⟩

/-- A response where a zero-valued point and a later nonzero point share
the start time `"t"`. -/
def exZeroFirst : TimeSeriesResponse :=
  ⟨some [⟨⟨[]⟩, [⟨⟨"t", "e1"⟩, ⟨"0"⟩⟩, ⟨⟨"t", "e2"⟩, ⟨"5"⟩⟩]⟩]⟩

/-- A response with one point whose value is the non-canonical decimal
string `"007"`. -/
def exPad7 : TimeSeriesResponse :=
  ⟨some [⟨⟨[]⟩, [⟨⟨"s", "e"⟩, ⟨"007"⟩⟩]⟩]⟩

/-- The same response as `exPad7` with the value written canonically. -/
def exCanon7 : TimeSeriesResponse :=
  ⟨some [⟨⟨[]⟩, [⟨⟨"s", "e"⟩, ⟨"7"⟩⟩]⟩]⟩

/-- A response exercising placeholder stripping and the README example
count `"48"`: the `module` label holds the placeholder, the `empty` label
the empty string, and the `type` label a real value. -/
def exLabels : TimeSeriesResponse :=
  ⟨some [⟨⟨[("module", .str "__unknown__"), ("type", .str "QUERY"), ("empty", .str "")]⟩,
    [⟨⟨"s", "e"⟩, ⟨"48"⟩⟩, ⟨⟨"s2", "e2"⟩, ⟨"0"⟩⟩]⟩]⟩

theorem startsWithB_iff (needle : List Char) :
    ∀ hay, startsWithB hay needle = true ↔ ∃ t, hay = needle ++ t := by
  induction needle with
  | nil =>
    intro hay
    simp [startsWithB]
  | cons n nt ih =>
    intro hay
    cases hay with
    | nil =>
      simp [startsWithB]
    | cons c t =>
      simp only [startsWithB, Bool.and_eq_true, beq_iff_eq, ih t, List.cons_append,
        List.cons.injEq]
      constructor
      · rintro ⟨rfl, u, rfl⟩
        exact ⟨u, rfl, rfl⟩
      · rintro ⟨u, rfl, rfl⟩
        exact ⟨rfl, u, rfl⟩

theorem strContains_iff (needle : List Char) :
    ∀ hay, strContains hay needle = true ↔ OccursIn needle hay := by
  intro hay
  induction hay with
  | nil =>
    simp only [strContains, Bool.or_false, startsWithB_iff, OccursIn]
    constructor
    · rintro ⟨t, ht⟩
      exact ⟨[], t, by simpa using ht⟩
    · rintro ⟨a, b, hab⟩
      have ha : a = [] := by
        cases a <;> simp_all
      subst ha
      exact ⟨b, by simpa using hab⟩
  | cons c t ih =>
    simp only [strContains, Bool.or_eq_true, startsWithB_iff, ih]
    constructor
    · rintro (⟨u, hu⟩ | ⟨a, b, hab⟩)
      · exact ⟨[], u, by simpa using hu⟩
      · exact ⟨c :: a, b, by simp [hab]⟩
    · rintro ⟨a, b, hab⟩
      cases a with
      | nil =>
        exact Or.inl ⟨b, by simpa using hab⟩
      | cons a0 arest =>
        simp only [List.cons_append, List.cons.injEq] at hab
        exact Or.inr ⟨arest, b, hab.2⟩

theorem mem_jsonRecTail {r : TimeIntervalMetric} :
    ∀ {l : List TimeIntervalMetric}, r ∈ l →
      ∃ a b, jsonRecTail l = a ++ jsonRecord r ++ b := by
  intro l hl
  induction l with
  | nil => cases hl
  | cons x xs ih =>
    rcases List.mem_cons.mp hl with rfl | hmem
    · exact ⟨[','], jsonRecTail xs, by simp [jsonRecTail]⟩
    · rcases ih hmem with ⟨a, b, hab⟩
      exact ⟨',' :: (jsonRecord x ++ a), b, by simp [jsonRecTail, hab]⟩

theorem occursIn_jsonRecList {r : TimeIntervalMetric} {l : List TimeIntervalMetric}
    (h : r ∈ l) : OccursIn (jsonRecord r) (jsonRecList l) := by
  cases l with
  | nil => cases h
  | cons x xs =>
    rcases List.mem_cons.mp h with rfl | hmem
    · exact ⟨['['], jsonRecTail xs ++ [']'], by simp [jsonRecList, jsonRecElems]⟩
    · rcases mem_jsonRecTail hmem with ⟨a, b, hab⟩
      exact ⟨'[' :: (jsonRecord x ++ a), b ++ [']'],
        by simp [jsonRecList, jsonRecElems, hab]⟩

theorem containsObject_of_mem {r : TimeIntervalMetric} {l : List TimeIntervalMetric}
    (h : r ∈ l) : containsObject r l = true :=
  (strContains_iff _ _).mpr (occursIn_jsonRecList h)

theorem foldl_cleanStep_append (ts : TimeSeries) :
    ∀ (pts : List Point) (acc : List TimeIntervalMetric),
      ∃ e, pts.foldl (cleanStep ts) acc = acc ++ e ∧
        e.Sublist ((pts.filter nonzero).map (pointRecord ts)) := by
  intro pts
  induction pts with
  | nil =>
    intro acc
    exact ⟨[], by simp, by simp⟩
  | cons p rest ih =>
    intro acc
    by_cases hz : p.value.int64Value = "0"
    · rcases ih acc with ⟨e, he, hsub⟩
      refine ⟨e, ?_, ?_⟩
      · simpa [cleanStep, hz] using he
      · have hf : (p :: rest).filter nonzero = rest.filter nonzero := by
          simp [List.filter_cons, nonzero, hz]
        rw [hf]
        exact hsub
    · by_cases hc : containsObject (pointRecord ts p) acc = true
      · rcases ih acc with ⟨e, he, hsub⟩
        refine ⟨e, ?_, ?_⟩
        · simpa [cleanStep, hz, hc] using he
        · have hf : (p :: rest).filter nonzero = p :: rest.filter nonzero := by
            simp [List.filter_cons, nonzero, hz]
          rw [hf, List.map_cons]
          exact hsub.cons _
      · rcases ih (acc ++ [pointRecord ts p]) with ⟨e, he, hsub⟩
        have hc' : containsObject (pointRecord ts p) acc = false := by
          simpa using hc
        refine ⟨pointRecord ts p :: e, ?_, ?_⟩
        · have hstep : cleanStep ts acc p = acc ++ [pointRecord ts p] := by
            simp [cleanStep, hz, hc']
          rw [List.foldl_cons, hstep, he, List.append_assoc, List.singleton_append]
        · have hf : (p :: rest).filter nonzero = p :: rest.filter nonzero := by
            simp [List.filter_cons, nonzero, hz]
          rw [hf, List.map_cons]
          exact hsub.cons₂ _

theorem foldl_cleanSeries_append :
    ∀ (series : List TimeSeries) (acc : List TimeIntervalMetric),
      ∃ e, series.foldl cleanSeries acc = acc ++ e ∧
        e.Sublist (series.flatMap fun ts => (ts.points.filter nonzero).map (pointRecord ts)) := by
  intro series
  induction series with
  | nil =>
    intro acc
    exact ⟨[], by simp, by simp⟩
  | cons ts rest ih =>
    intro acc
    rcases foldl_cleanStep_append ts ts.points acc with ⟨e1, he1, hsub1⟩
    rcases ih (acc ++ e1) with ⟨e2, he2, hsub2⟩
    refine ⟨e1 ++ e2, ?_, ?_⟩
    · rw [List.foldl_cons]
      show rest.foldl cleanSeries (cleanSeries acc ts) = acc ++ (e1 ++ e2)
      rw [show cleanSeries acc ts = acc ++ e1 from he1, he2, List.append_assoc]
    · rw [List.flatMap_cons]
      exact hsub1.append hsub2

theorem cleanStep_nodup (ts : TimeSeries) (p : Point) {acc : List TimeIntervalMetric}
    (h : acc.Nodup) : (cleanStep ts acc p).Nodup := by
  unfold cleanStep
  split
  · split
    · exact h
    · next hc =>
      refine List.Nodup.append h (List.nodup_singleton _) ?_
      rw [List.disjoint_singleton]
      intro hmem
      exact hc (containsObject_of_mem hmem)
  · exact h

theorem foldl_cleanStep_nodup (ts : TimeSeries) :
    ∀ (pts : List Point) {acc : List TimeIntervalMetric}, acc.Nodup →
      (pts.foldl (cleanStep ts) acc).Nodup := by
  intro pts
  induction pts with
  | nil => intro acc h; exact h
  | cons p rest ih =>
    intro acc h
    exact ih (cleanStep_nodup ts p h)

theorem foldl_cleanSeries_nodup :
    ∀ (series : List TimeSeries) {acc : List TimeIntervalMetric}, acc.Nodup →
      (series.foldl cleanSeries acc).Nodup := by
  intro series
  induction series with
  | nil => intro acc h; exact h
  | cons ts rest ih =>
    intro acc h
    exact ih (foldl_cleanStep_nodup ts ts.points h)

theorem mem_cleanResponseTimeSeries {resp : TimeSeriesResponse} {r : TimeIntervalMetric}
    (h : r ∈ cleanResponseTimeSeries resp) :
    ∃ ser ts p, resp.timeSeries = some ser ∧ ts ∈ ser ∧ p ∈ ts.points ∧
      p.value.int64Value ≠ "0" ∧ r = pointRecord ts p := by
  obtain ⟨o⟩ := resp
  cases o with
  | none => simp [cleanResponseTimeSeries] at h
  | some ser =>
    simp only [cleanResponseTimeSeries] at h
    rcases foldl_cleanSeries_append ser [] with ⟨e, he, hsub⟩
    rw [he, List.nil_append] at h
    have hmem := hsub.subset h
    rcases List.mem_flatMap.mp hmem with ⟨ts, hts, hmem2⟩
    rcases List.mem_map.mp hmem2 with ⟨p, hp, rfl⟩
    have hp' := List.mem_filter.mp hp
    refine ⟨ser, ts, p, rfl, hts, hp'.1, ?_, rfl⟩
    simpa [nonzero] using hp'.2

theorem foldl_monStep :
    ∀ (pts : List Point) (acc : List MonRecord) (seen : List String),
      pts.foldl monStep (acc, seen) = (acc ++ monAux pts seen, monSeen pts seen) := by
  intro pts
  induction pts with
  | nil =>
    intro acc seen
    simp [monAux, monSeen]
  | cons p rest ih =>
    intro acc seen
    by_cases hz : p.value.int64Value = "0"
    · rw [List.foldl_cons]
      rw [show monStep (acc, seen) p = (acc, seen) from by simp [monStep, hz]]
      rw [ih, show monAux (p :: rest) seen = monAux rest seen from by simp [monAux, hz],
        show monSeen (p :: rest) seen = monSeen rest seen from by simp [monSeen, hz]]
    · by_cases hc : p.interval.startTime ∈ seen
      · rw [List.foldl_cons]
        rw [show monStep (acc, seen) p = (acc, seen) from by simp [monStep, hz, hc]]
        rw [ih, show monAux (p :: rest) seen = monAux rest seen from by
            simp [monAux, hz, hc],
          show monSeen (p :: rest) seen = monSeen rest seen from by simp [monSeen, hz, hc]]
      · rw [List.foldl_cons]
        rw [show monStep (acc, seen) p =
            (acc ++ [monRecordOfPoint p], seen ++ [p.interval.startTime]) from by
          simp [monStep, monRecordOfPoint, hz, hc]]
        rw [ih, show monAux (p :: rest) seen =
            monRecordOfPoint p :: monAux rest (seen ++ [p.interval.startTime]) from by
          simp [monAux, hz, hc],
          show monSeen (p :: rest) seen = monSeen rest (seen ++ [p.interval.startTime]) from by
          simp [monSeen, hz, hc]]
        rw [List.append_assoc, List.singleton_append]

theorem nested_foldl_monStep :
    ∀ (series : List TimeSeries) (st : List MonRecord × List String),
      series.foldl (fun st ts => ts.points.foldl monStep st) st =
        (series.flatMap fun ts => ts.points).foldl monStep st := by
  intro series
  induction series with
  | nil => intro st; simp
  | cons ts rest ih =>
    intro st
    rw [List.foldl_cons, List.flatMap_cons, List.foldl_append, ih]

theorem cleanResponseTimeSeriesMon_eq_monAux (resp : TimeSeriesResponse) :
    cleanResponseTimeSeriesMon resp = monAux (responsePoints resp) [] := by
  obtain ⟨o⟩ := resp
  cases o with
  | none => simp [cleanResponseTimeSeriesMon, responsePoints, monAux]
  | some ser =>
    simp only [cleanResponseTimeSeriesMon, responsePoints]
    rw [nested_foldl_monStep, foldl_monStep]
    simp

theorem monAux_sublist :
    ∀ (pts : List Point) (seen : List String),
      (monAux pts seen).Sublist ((pts.filter nonzero).map monRecordOfPoint) := by
  intro pts
  induction pts with
  | nil => intro seen; simp [monAux]
  | cons p rest ih =>
    intro seen
    by_cases hz : p.value.int64Value = "0"
    · have hf : (p :: rest).filter nonzero = rest.filter nonzero := by
        simp [List.filter_cons, nonzero, hz]
      rw [show monAux (p :: rest) seen = monAux rest seen from by simp [monAux, hz], hf]
      exact ih seen
    · have hf : (p :: rest).filter nonzero = p :: rest.filter nonzero := by
        simp [List.filter_cons, nonzero, hz]
      by_cases hc : p.interval.startTime ∈ seen
      · rw [show monAux (p :: rest) seen = monAux rest seen from by simp [monAux, hz, hc],
          hf, List.map_cons]
        exact (ih seen).cons _
      · rw [show monAux (p :: rest) seen =
            monRecordOfPoint p :: monAux rest (seen ++ [p.interval.startTime]) from by
          simp [monAux, hz, hc], hf, List.map_cons]
        exact (ih _).cons₂ _

theorem mem_monAux {r : MonRecord} {pts : List Point} {seen : List String}
    (h : r ∈ monAux pts seen) :
    ∃ p ∈ pts, p.value.int64Value ≠ "0" ∧ r = monRecordOfPoint p := by
  have hmem := (monAux_sublist pts seen).subset h
  rcases List.mem_map.mp hmem with ⟨p, hp, rfl⟩
  have hp' := List.mem_filter.mp hp
  exact ⟨p, hp'.1, by simpa [nonzero] using hp'.2, rfl⟩

theorem monAux_startTimes_nodup :
    ∀ (pts : List Point) (seen : List String),
      ((monAux pts seen).map (fun r => r.interval.startTime)).Nodup ∧
        ∀ r ∈ monAux pts seen, r.interval.startTime ∉ seen := by
  intro pts
  induction pts with
  | nil => intro seen; simp [monAux]
  | cons p rest ih =>
    intro seen
    by_cases hz : p.value.int64Value = "0"
    · rw [show monAux (p :: rest) seen = monAux rest seen from by simp [monAux, hz]]
      exact ih seen
    · by_cases hc : p.interval.startTime ∈ seen
      · rw [show monAux (p :: rest) seen = monAux rest seen from by simp [monAux, hz, hc]]
        exact ih seen
      · rw [show monAux (p :: rest) seen =
            monRecordOfPoint p :: monAux rest (seen ++ [p.interval.startTime]) from by
          simp [monAux, hz, hc]]
        rcases ih (seen ++ [p.interval.startTime]) with ⟨ihnodup, ihseen⟩
        constructor
        · rw [List.map_cons, List.nodup_cons]
          refine ⟨?_, ihnodup⟩
          intro hmem
          rcases List.mem_map.mp hmem with ⟨r, hr, hrT⟩
          have := ihseen r hr
          rw [hrT] at this
          exact this (by simp [monRecordOfPoint])
        · intro r hr
          rcases List.mem_cons.mp hr with rfl | hr'
          · simpa [monRecordOfPoint] using hc
          · intro hmem
            exact ihseen r hr' (by simp [hmem])

theorem monAux_eq_retain :
    ∀ (pts : List Point) (seen : List String),
      monAux pts seen =
        (retainFirstByStart (pts.filter fun p =>
          nonzero p && !(seen.contains p.interval.startTime))).map monRecordOfPoint := by
  intro pts
  induction pts with
  | nil => intro seen; simp [monAux, retainFirstByStart]
  | cons p rest ih =>
    intro seen
    by_cases hz : p.value.int64Value = "0"
    · have hf : (p :: rest).filter (fun p => nonzero p && !(seen.contains p.interval.startTime))
          = rest.filter (fun p => nonzero p && !(seen.contains p.interval.startTime)) := by
        simp [List.filter_cons, nonzero, hz]
      rw [show monAux (p :: rest) seen = monAux rest seen from by simp [monAux, hz], hf]
      exact ih seen
    · by_cases hc : p.interval.startTime ∈ seen
      · have hf : (p :: rest).filter (fun p => nonzero p && !(seen.contains p.interval.startTime))
            = rest.filter (fun p => nonzero p && !(seen.contains p.interval.startTime)) := by
          simp [List.filter_cons, hc]
        rw [show monAux (p :: rest) seen = monAux rest seen from by simp [monAux, hz, hc], hf]
        exact ih seen
      · have hf : (p :: rest).filter (fun p => nonzero p && !(seen.contains p.interval.startTime))
            = p :: rest.filter (fun p => nonzero p && !(seen.contains p.interval.startTime)) := by
          simp [List.filter_cons, nonzero, hz, hc]
        rw [show monAux (p :: rest) seen =
            monRecordOfPoint p :: monAux rest (seen ++ [p.interval.startTime]) from by
          simp [monAux, hz, hc], hf]
        rw [retainFirstByStart, List.map_cons]
        congr 1
        rw [ih (seen ++ [p.interval.startTime])]
        congr 2
        rw [List.filter_filter]
        apply List.filter_congr
        intro q hq
        by_cases h1 : q.interval.startTime = p.interval.startTime
        · simp [h1]
        · by_cases h2 : q.interval.startTime ∈ seen
          · simp [h1, h2]
          · simp [h1, h2]

theorem flatMap_filtered_sublist (series : List TimeSeries) :
    (series.flatMap fun ts => (ts.points.filter nonzero).map (pointRecord ts)).Sublist
      (series.flatMap fun ts => ts.points.map (pointRecord ts)) := by
  induction series with
  | nil => simp
  | cons ts rest ih =>
    rw [List.flatMap_cons, List.flatMap_cons]
    exact ((List.filter_sublist ts.points).map _).append ih

/-- C1 (amended): every variant drops exactly the points whose value is the
literal string `"0"`; consequently, for any response in which every point
whose value parses to zero is written canonically as `"0"`, the
structural-equality variant emits no record with count `0`, and the
monitoring variant never emits the literal count string `"0"` on any
response. -/
theorem cleanResponseTimeSeries_no_zero_count (resp : TimeSeriesResponse)
    (h : ∀ ts ∈ resp.timeSeries.getD [], ∀ p ∈ ts.points,
      jsParseInt p.value.int64Value = some 0 → p.value.int64Value = "0") :
    (∀ r ∈ cleanResponseTimeSeries resp, r.count ≠ some 0) ∧
      ∀ r ∈ cleanResponseTimeSeriesMon resp, r.count ≠ "0" := by
  constructor
  · intro r hr hcount
    rcases mem_cleanResponseTimeSeries hr with ⟨ser, ts, p, hser, hts, hp, hnz, rfl⟩
    have hts' : ts ∈ resp.timeSeries.getD [] := by rw [hser]; exact hts
    have hzero : jsParseInt p.value.int64Value = some 0 := by
      simpa [pointRecord] using hcount
    exact hnz (h ts hts' p hp hzero)
  · intro r hr hcount
    rw [cleanResponseTimeSeriesMon_eq_monAux] at hr
    rcases mem_monAux hr with ⟨p, hp, hnz, rfl⟩
    exact hnz (by simpa [monRecordOfPoint] using hcount)

/-- C1 witness: on the response `exLabels` (values `"48"` and `"0"`, whose
only zero-denoting value is canonical) the emitted `QUERY` record has the
nonzero count 48. -/
theorem cleanResponseTimeSeries_no_zero_count_witness :
    (⟨[("type", .str "QUERY")], ⟨"s", "e"⟩, some 48⟩ : TimeIntervalMetric).count ≠ some 0 :=
  (cleanResponseTimeSeries_no_zero_count exLabels (by decide)).1 _ (by decide)

/-- C1 counterexample: the point value `"00"` denotes zero but is not the
literal `"0"`, so the structural-equality variant emits a record whose
count is `0` — the claim that any point whose value denotes zero is
dropped fails on this input. -/
theorem cleanResponseTimeSeries_emits_zero_count :
    (cleanResponseTimeSeries exZeroPad).map (fun r => r.count) = [some 0] ∧
      jsParseInt "00" = some 0 := by
  exact ⟨by decide, by decide⟩

/-- C2 (amended): the structural-equality variant (`src/index.ts`) never
emits two structurally identical records, and the monitoring variant
(`unnamed/part_002`) never emits two records sharing a start time; the
operation-label variant (`unnamed/part_003`) performs no deduplication at
all and can emit duplicates. -/
theorem clean_no_duplicate_records (resp : TimeSeriesResponse) :
    (cleanResponseTimeSeries resp).Nodup ∧
      ((cleanResponseTimeSeriesMon resp).map fun r => r.interval.startTime).Nodup := by
  constructor
  · obtain ⟨o⟩ := resp
    cases o with
    | none => simp [cleanResponseTimeSeries]
    | some ser =>
      simp only [cleanResponseTimeSeries]
      exact foldl_cleanSeries_nodup ser List.nodup_nil
  · rw [cleanResponseTimeSeriesMon_eq_monAux]
    exact (monAux_startTimes_nodup _ _).1

/-- C2 counterexample: the operation-label variant of
`cleanResponseTimeSeries` (`unnamed/part_003`) emits the identical record
twice for a series carrying the same nonzero point twice, so its output
contains duplicates under both stated criteria (structural equality and
equal start times). -/
theorem cleanResponseTimeSeriesOp_emits_duplicates :
    cleanResponseTimeSeriesOp exDupPts =
      [⟨.str "QUERY", ⟨"s", "e"⟩, some 5⟩, ⟨.str "QUERY", ⟨"s", "e"⟩, some 5⟩] ∧
    ¬ (cleanResponseTimeSeriesOp exDupPts).Nodup ∧
    ¬ ((cleanResponseTimeSeriesOp exDupPts).map fun r => r.interval.startTime).Nodup := by
  exact ⟨by decide, by decide, by decide⟩

/-- C3 (amended): in the monitoring variant, among the points whose value
is not the literal `"0"`, only the first point with a given
`interval.startTime` yields an output record and every later nonzero
point with that start time is skipped: the output equals the first-wins
selection over the zero-filtered traversal-order point list.  (A point
with value `"0"` is dropped before the start-time check and does not
reserve its start time.) -/
theorem cleanResponseTimeSeriesMon_first_start_time_wins (resp : TimeSeriesResponse) :
    cleanResponseTimeSeriesMon resp =
      (retainFirstByStart ((responsePoints resp).filter nonzero)).map monRecordOfPoint := by
  rw [cleanResponseTimeSeriesMon_eq_monAux, monAux_eq_retain]
  congr 2
  apply List.filter_congr
  intro q hq
  simp

/-- C3 counterexample: two points share the start time `"t"`, the first
having the value `"0"`; the claim says every later point with that start
time is skipped, yet the code emits the record of the second point —
zero-valued points do not reserve their start time. -/
theorem cleanResponseTimeSeriesMon_zero_does_not_reserve :
    cleanResponseTimeSeriesMon exZeroFirst = [⟨⟨"t", "e2"⟩, "5"⟩] ∧
    (responsePoints exZeroFirst).map (fun p => p.interval.startTime) = ["t", "t"] ∧
    (⟨⟨"t", "e2"⟩, "5"⟩ : MonRecord) ≠ monRecordOfPoint ⟨⟨"t", "e1"⟩, ⟨"0"⟩⟩ := by
  exact ⟨by decide, by decide, by decide⟩

/-- C4: every record the structural-equality variant emits carries exactly
the labels of its source series whose values are valid: any label valued
`"__unknown__"`, `""`, `null` or `undefined` is absent from the record,
and every label with any other value is carried into it. -/
theorem cleanResponseTimeSeries_strips_placeholder_labels
    (resp : TimeSeriesResponse) (r : TimeIntervalMetric)
    (hr : r ∈ cleanResponseTimeSeries resp) :
    (∀ kv ∈ r.labels, isInvalidLabelVal kv.2 = false) ∧
    ∃ ser ts, resp.timeSeries = some ser ∧ ts ∈ ser ∧
      r.labels = cleanObject ts.metric.labels ∧
      ∀ k v, ((k, v) ∈ r.labels ↔ (k, v) ∈ ts.metric.labels ∧ isInvalidLabelVal v = false) := by
  rcases mem_cleanResponseTimeSeries hr with ⟨ser, ts, p, hser, hts, hp, hnz, rfl⟩
  constructor
  · intro kv hkv
    have := (List.mem_filter.mp hkv).2
    simpa using this
  · refine ⟨ser, ts, hser, hts, rfl, ?_⟩
    intro k v
    constructor
    · intro hkv
      have h' := List.mem_filter.mp hkv
      exact ⟨h'.1, by simpa using h'.2⟩
    · intro ⟨hkv, hval⟩
      exact List.mem_filter.mpr ⟨hkv, by simp [hval]⟩

/-- C4 witness: on `exLabels` the emitted record keeps the `type` label
and contains no invalid-valued label; its label list is exactly the
cleaned label object of its series. -/
theorem cleanResponseTimeSeries_strips_placeholder_labels_witness :
    (∀ kv ∈ (⟨[("type", .str "QUERY")], ⟨"s", "e"⟩, some 48⟩ : TimeIntervalMetric).labels,
      isInvalidLabelVal kv.2 = false) ∧
    ∃ ser ts, exLabels.timeSeries = some ser ∧ ts ∈ ser ∧
      (⟨[("type", .str "QUERY")], ⟨"s", "e"⟩, some 48⟩ : TimeIntervalMetric).labels =
        cleanObject ts.metric.labels ∧
      ∀ k v, ((k, v) ∈ (⟨[("type", .str "QUERY")], ⟨"s", "e"⟩, some 48⟩ :
          TimeIntervalMetric).labels ↔
        (k, v) ∈ ts.metric.labels ∧ isInvalidLabelVal v = false) :=
  cleanResponseTimeSeries_strips_placeholder_labels exLabels _ (by decide)

/-- C5: a response whose `timeSeries` field is absent yields the empty
record list in all three variants, and the normalizers are total — the
absence of `timeSeries` is never an error. -/
theorem clean_missing_timeSeries (resp : TimeSeriesResponse)
    (h : resp.timeSeries = none) :
    cleanResponseTimeSeries resp = [] ∧ cleanResponseTimeSeriesMon resp = [] ∧
      cleanResponseTimeSeriesOp resp = [] := by
  obtain ⟨o⟩ := resp
  cases o with
  | none =>
    exact ⟨rfl, rfl, rfl⟩
  | some ser =>
    simp at h

/-- C5 witness: the literal absent-`timeSeries` response maps to `[]`. -/
theorem clean_missing_timeSeries_witness :
    cleanResponseTimeSeries ⟨none⟩ = [] ∧ cleanResponseTimeSeriesMon ⟨none⟩ = [] ∧
      cleanResponseTimeSeriesOp ⟨none⟩ = [] :=
  clean_missing_timeSeries ⟨none⟩ rfl

/-- C6: the output of the structural-equality variant and of the
monitoring variant is an in-order subsequence of the records obtained by
visiting series in input order and points in input order within each
series — retained records keep their relative traversal order. -/
theorem clean_preserves_traversal_order (resp : TimeSeriesResponse) :
    (cleanResponseTimeSeries resp).Sublist (mainCandidates resp) ∧
      (cleanResponseTimeSeriesMon resp).Sublist (monCandidates resp) := by
  constructor
  · obtain ⟨o⟩ := resp
    cases o with
    | none => simp [cleanResponseTimeSeries, mainCandidates]
    | some ser =>
      simp only [cleanResponseTimeSeries, mainCandidates]
      rcases foldl_cleanSeries_append ser [] with ⟨e, he, hsub⟩
      rw [he, List.nil_append]
      exact hsub.trans (flatMap_filtered_sublist ser)
  · rw [cleanResponseTimeSeriesMon_eq_monAux]
    exact (monAux_sublist _ _).trans ((List.filter_sublist _).map _)

/-- C7 (amended): every record the structural-equality variant retains
carries its source point's interval unchanged and the integer
`parseInt(point.value.int64Value)` as its count; in the monitoring
variant the interval is likewise unchanged but the count is the raw
decimal string itself, not a parsed integer. -/
theorem clean_record_construction (resp : TimeSeriesResponse) :
    (∀ r ∈ cleanResponseTimeSeries resp,
      ∃ ser ts p, resp.timeSeries = some ser ∧ ts ∈ ser ∧ p ∈ ts.points ∧
        p.value.int64Value ≠ "0" ∧ r.interval = p.interval ∧
        r.count = jsParseInt p.value.int64Value) ∧
    ∀ r ∈ cleanResponseTimeSeriesMon resp,
      ∃ p ∈ responsePoints resp, p.value.int64Value ≠ "0" ∧
        r.interval = p.interval ∧ r.count = p.value.int64Value := by
  constructor
  · intro r hr
    rcases mem_cleanResponseTimeSeries hr with ⟨ser, ts, p, hser, hts, hp, hnz, rfl⟩
    exact ⟨ser, ts, p, hser, hts, hp, hnz, rfl, rfl⟩
  · intro r hr
    rw [cleanResponseTimeSeriesMon_eq_monAux] at hr
    rcases mem_monAux hr with ⟨p, hp, hnz, rfl⟩
    exact ⟨p, hp, hnz, rfl, rfl⟩

/-- C7 counterexample: the monitoring variant's count is the unparsed
string — on the value `"007"` it emits the count string `"007"`, and two
responses that agree pointwise on intervals and parsed integer values
(`"007"` vs `"7"`, both parsing to 7) produce different outputs, which is
impossible if the emitted count were the parsed integer. -/
theorem cleanResponseTimeSeriesMon_count_not_parsed :
    (cleanResponseTimeSeriesMon exPad7).map (fun r => r.count) = ["007"] ∧
    (responsePoints exPad7).map (fun p => jsParseInt p.value.int64Value) =
      (responsePoints exCanon7).map (fun p => jsParseInt p.value.int64Value) ∧
    (responsePoints exPad7).map (fun p => p.interval) =
      (responsePoints exCanon7).map (fun p => p.interval) ∧
    cleanResponseTimeSeriesMon exPad7 ≠ cleanResponseTimeSeriesMon exCanon7 := by
  exact ⟨by decide, by decide, by decide, by decide⟩

/-- C8: `FirestoreMetrics.makeRequest` returns normally exactly on status
200 and otherwise raises a failure whose message is the response body
text; `FirestoreMonitoring.makeRequest` never raises on status, and
`getFirestoreReadCount` hands the status and body back to the caller in
its `{status, statusText, data}` envelope. -/
theorem makeRequest_status_handling (response : HttpResponse) :
    ((makeRequest response).isOk = true ↔ response.status = 200) ∧
    (response.status ≠ 200 → makeRequest response = .error response.text) ∧
    (response.status = 200 → makeRequest response = .ok response) ∧
    makeRequestMon response = .ok response ∧
    getFirestoreReadCount response =
      ⟨response.status, response.statusText, cleanResponseTimeSeriesMon response.json⟩ := by
  by_cases h : response.status = 200
  · simp [makeRequest, makeRequestMon, getFirestoreReadCount, h, Except.isOk, Except.toBool]
  · simp [makeRequest, makeRequestMon, getFirestoreReadCount, h, Except.isOk, Except.toBool]

/-- C8 witness: a 403 response makes the `FirestoreMetrics` variant raise
with the body as message, while the monitoring variant returns the status
and data to the caller. -/
theorem makeRequest_status_handling_witness :
    makeRequest ⟨403, "Forbidden", "billing is not enabled", ⟨none⟩⟩ =
      Except.error "billing is not enabled" ∧
    getFirestoreReadCount ⟨403, "Forbidden", "billing is not enabled", ⟨none⟩⟩ =
      ⟨403, "Forbidden", []⟩ :=
  ⟨(makeRequest_status_handling _).2.1 (by decide),
    ((makeRequest_status_handling ⟨403, "Forbidden", "billing is not enabled", ⟨none⟩⟩).2.2.2.2).trans
      (by decide)⟩

/-- C9: when a metric-query method runs with no caller-supplied token and
a token is already cached, the cached token is unchanged —
`generateToken(false)` keeps and returns an existing non-null token — and
only `generateToken(true)` or `setAccessToken` replaces it. -/
theorem generateToken_keeps_cached_token (env : AuthEnv) (s : ClientState) (t a : String)
    (h : s.accessToken = some t) :
    (generateToken env false s).2 = some t ∧
    (generateToken env false s).1.accessToken = some t ∧
    (getReadCountTokenEffect env none s).accessToken = some t ∧
    (generateToken env true s).1.accessToken = some env.token ∧
    (setAccessToken a s).accessToken = some a := by
  obtain ⟨p0, a0, g0⟩ := s
  simp only at h
  subst h
  simp [generateToken, getProjectId, createGoogleAuthInstance, getReadCountTokenEffect,
    setAccessToken]

/-- C9 witness: with the token `"tok"` cached, an implicit
`generateToken(false)` leaves it in place, while an explicit overwrite or
`setAccessToken` replaces it. -/
theorem generateToken_keeps_cached_token_witness :
    (generateToken ⟨"new", "proj"⟩ false ⟨some "p", some "tok", true⟩).2 = some "tok" ∧
    (generateToken ⟨"new", "proj"⟩ false ⟨some "p", some "tok", true⟩).1.accessToken = some "tok" ∧
    (getReadCountTokenEffect ⟨"new", "proj"⟩ none ⟨some "p", some "tok", true⟩).accessToken =
      some "tok" ∧
    (generateToken ⟨"new", "proj"⟩ true ⟨some "p", some "tok", true⟩).1.accessToken = some "new" ∧
    (setAccessToken "x" ⟨some "p", some "tok", true⟩).accessToken = some "x" :=
  generateToken_keeps_cached_token ⟨"new", "proj"⟩ ⟨some "p", some "tok", true⟩ "tok" "x" rfl

/-- C10: the duplicate test `containsObject(obj, list)` holds exactly when
the JSON serialization of the candidate record occurs as a contiguous
substring of the JSON serialization of the accumulated output array — the
suppression criterion is substring occurrence, not structural equality of
an appended record. -/
theorem containsObject_iff_substring (obj : TimeIntervalMetric)
    (list : List TimeIntervalMetric) :
    containsObject obj list = true ↔ OccursIn (jsonRecord obj) (jsonRecList list) :=
  strContains_iff _ _

end FirestoreMetrics
